import Mathlib

/-!
# Verification of the rust-calculator expression interpreter

Shallow embedding of `src/rust-calculator/src/main.rs` (lexer + recursive
descent parser/evaluator) and of the snapshot handling in
`src/rust-calculator/src/cli.rs`, together with theorems settling the frozen
claims about the natural-language specification.

Modelling conventions:
* Rust `f64` is modelled by a value type `F`: an exact rational together with
  the IEEE-754 special values `+∞`, `-∞` and `NaN`.  All arithmetic appearing
  in the verified properties is exact in `f64` (small integers, exact
  divisions, integer powers), so the exact-rational model agrees with the IEEE
  double computation there.  Rounding of inexact operations is not modelled;
  no theorem below depends on an inexact operation.  Negative zero is not
  modelled (no claim distinguishes it).
* The transcendental library functions (`sin`, …, `sqrt`) are modelled over
  the real numbers in a second instantiation `modelR` of the same generic
  interpreter; the exact-rational instantiation `modelF` maps the
  transcendental names to `NaN` and is never used to evaluate them in any
  theorem.
* Rust panics (`panic!` in the lexer, in `eat`, in `factor`, in variable
  lookup and in the function tables) are modelled as values of `EvalError`;
  `catch_unwind` in the callers corresponds to matching on `Except.error`.
* The recursive-descent parser is one structurally recursive function `run`
  on a fuel parameter; each `Rule` constructor corresponds to one parser
  method of the source (`parse`, `statement`, `assignment`, `expr`, `term`,
  `power`, `factor` and the two operator `while` loops).  The fuel budget
  chosen by `evaluate` is far larger than the number of recursive calls any
  input can cause; `EvalError.outOfFuel` is an artifact of the embedding and
  is not produced on any input evaluated in the theorems below.
-/

namespace Calc

/-- Character classes used by `Lexer::read_number`: digits and decimal points
(`ch.is_ascii_digit() || ch == '.'`). -/
def isNumChar (c : Char) : Bool := c.isDigit || c = '.'

/-- Character class of `Lexer::read_identifier`
(`is_ascii_alphabetic || is_ascii_digit || '_'`). -/
def isIdentChar (c : Char) : Bool := c.isAlpha || c.isDigit || c = '_'

/-- Rust `char::is_whitespace` (Unicode `White_Space`), used by
`Lexer::skip_whitespace`. -/
def isRustWhitespace (c : Char) : Bool :=
  c.toNat = 0x20 || c.toNat = 0x9 || c.toNat = 0xA || c.toNat = 0xB ||
  c.toNat = 0xC || c.toNat = 0xD || c.toNat = 0x85 || c.toNat = 0xA0 ||
  c.toNat = 0x1680 || (0x2000 <= c.toNat && c.toNat <= 0x200A) ||
  c.toNat = 0x2028 || c.toNat = 0x2029 || c.toNat = 0x202F ||
  c.toNat = 0x205F || c.toNat = 0x3000

/-- Numeric value of a big-endian ASCII digit list ("reading digits left to
right").  Used to give the exact value of a valid numeric literal. -/
def valDigits (l : List Char) : ℕ :=
  l.foldl (fun a c => 10 * a + (c.toNat - 48)) 0

/-- Validity of the string collected by `Lexer::read_number` as a Rust `f64`
literal.  `read_number` only ever collects nonempty strings of ASCII digits
and `'.'` that start with a digit; on that domain Rust's
`str::parse::<f64>()` succeeds exactly when the string contains at most one
`'.'` (e.g. `"1"`, `"1."`, `"1.25"` parse; `"1.2.3"`, `"1..2"` do not). -/
def numValid (s : List Char) : Bool := (s.filter (· = '.')).length ≤ 1

/-- Value of the numeric literal collected by `Lexer::read_number`, following
`number_str.parse().unwrap_or(0.0)`: the parsed value for a valid literal and
`0` for a malformed one.  The decimal value is taken exactly (every literal
appearing in a verified property is exactly representable in `f64`). -/
def parseNumber (s : List Char) : ℚ :=
  if numValid s then
    let ip := s.takeWhile (·.isDigit)
    let fp := (s.drop ip.length).drop 1
    (valDigits ip : ℚ) + (valDigits fp : ℚ) / 10 ^ fp.length
  else 0

/-- `Lexer::read_number`: take the maximal run of digits/decimal points,
return it together with the remaining input. -/
def readNumber (l : List Char) : List Char × List Char :=
  (l.takeWhile isNumChar, l.dropWhile isNumChar)

/-- `Lexer::read_identifier`: take the maximal run of identifier characters,
return it together with the remaining input. -/
def readIdent (l : List Char) : List Char × List Char :=
  (l.takeWhile isIdentChar, l.dropWhile isIdentChar)

/-- The fixed set of identifiers the lexer emits as `Token::Function`
(the match arms in `Lexer::next_token`). -/
def isBuiltinName (s : String) : Bool :=
  s = "sin" || s = "cos" || s = "tan" || s = "asin" || s = "acos" ||
  s = "atan" || s = "sqrt" || s = "abs" || s = "floor" || s = "ceil" ||
  s = "round" || s = "pi" || s = "e"

/-- The builtin vocabulary as a list (same names, same order as the source's
match arms). -/
def builtinNames : List String :=
  ["sin", "cos", "tan", "asin", "acos", "atan",
   "sqrt", "abs", "floor", "ceil", "round", "pi", "e"]

/-- `Token` from main.rs.  `number` carries the exact rational value of the
literal (see `parseNumber`). -/
inductive Token where
  | number (v : ℚ)
  | identifier (name : String)
  | plus | minus | multiply | divide | modulo | power
  | leftParen | rightParen | comma | assign | semicolon
  | function (name : String)
  | eof
  deriving Repr, DecidableEq

/-- The failure modes of one evaluation call.  The source signals each of
these by `panic!`; the spec names them LexError / ParseError /
UndefinedVariableError / UnknownFunctionError.  `outOfFuel` is an artifact of
the fuel-based embedding of the recursive descent and is never produced on
the inputs evaluated below. -/
inductive EvalError where
  | lexError (c : Char)
  | parseError (expected got : Token)
  | unexpectedToken (got : Token)
  | undefinedVariable (name : String)
  | unknownFunction (name : String)
  | outOfFuel
  deriving Repr, DecidableEq

/-- `Lexer::skip_whitespace`. -/
def skipWhitespace (l : List Char) : List Char := l.dropWhile isRustWhitespace

/-- Dispatch of `Lexer::next_token` once whitespace has been dealt with:
the big `match ch` of the source.  The `' ' | '\t' | '\n'` arm cannot fire
here (see `nextToken`); every character outside the recognized classes is the
source's `panic!("Unexpected character")`. -/
def nextTokenAux : List Char → Except EvalError (Token × List Char)
  | [] => .ok (.eof, [])
  | c :: rest =>
    if c = '+' then .ok (.plus, rest)
    else if c = '-' then .ok (.minus, rest)
    else if c = '*' then .ok (.multiply, rest)
    else if c = '/' then .ok (.divide, rest)
    else if c = '^' then .ok (.power, rest)
    else if c = '%' then .ok (.modulo, rest)
    else if c = '(' then .ok (.leftParen, rest)
    else if c = ')' then .ok (.rightParen, rest)
    else if c = '=' then .ok (.assign, rest)
    else if c = ';' then .ok (.semicolon, rest)
    else if c = ',' then .ok (.comma, rest)
    else if c.isDigit then
      let (s, rest') := readNumber (c :: rest)
      .ok (.number (parseNumber s), rest')
    else if c.isAlpha || c = '_' then
      let (s, rest') := readIdent (c :: rest)
      let name := String.mk s
      if isBuiltinName name then .ok (.function name, rest')
      else .ok (.identifier name, rest')
    else .error (.lexError c)

/-- `Lexer::next_token`.  The lexer state is the remaining input (the source
keeps a cursor into an immutable array; only the suffix from the cursor on is
ever inspected).  The source's `' ' | '\t' | '\n' => { skip_whitespace;
continue }` arm runs at most once, because `skip_whitespace` leaves a
non-whitespace character (or the end of input) under the cursor, so the loop
is equivalent to this single conditional.  Note that the whitespace arm fires
only on space/tab/newline: any other Unicode whitespace at the cursor falls
through to the catch-all panic arm, which this embedding preserves. -/
def nextToken (l : List Char) : Except EvalError (Token × List Char) :=
  match l with
  | [] => .ok (.eof, [])
  | c :: rest =>
    if c = ' ' || c = '\t' || c = '\n' then nextTokenAux (skipWhitespace (c :: rest))
    else nextTokenAux (c :: rest)

/-- Model of a Rust `f64` value: an exact rational, `+∞`, `-∞`, or `NaN`.
Negative zero is identified with zero (no claim distinguishes them). -/
inductive F where
  | num (q : ℚ)
  | inf
  | negInf
  | nan
  deriving Repr, DecidableEq

instance : OfNat F n := ⟨F.num n⟩

/-- IEEE-754 addition on `F` (`f64::add`); exact on rationals. -/
def addF : F → F → F
  | .nan, _ => .nan
  | _, .nan => .nan
  | .inf, .negInf => .nan
  | .negInf, .inf => .nan
  | .inf, _ => .inf
  | _, .inf => .inf
  | .negInf, _ => .negInf
  | _, .negInf => .negInf
  | .num a, .num b => .num (a + b)

/-- IEEE-754 negation on `F` (`f64::neg`). -/
def negF : F → F
  | .num a => .num (-a)
  | .inf => .negInf
  | .negInf => .inf
  | .nan => .nan

/-- IEEE-754 subtraction on `F` (`f64::sub`); exact on rationals. -/
def subF : F → F → F
  | .nan, _ => .nan
  | _, .nan => .nan
  | .inf, .inf => .nan
  | .negInf, .negInf => .nan
  | .inf, _ => .inf
  | _, .inf => .negInf
  | .negInf, _ => .negInf
  | _, .negInf => .inf
  | .num a, .num b => .num (a - b)

/-- IEEE-754 multiplication on `F` (`f64::mul`); exact on rationals. -/
def mulF : F → F → F
  | .nan, _ => .nan
  | _, .nan => .nan
  | .inf, .inf => .inf
  | .inf, .negInf => .negInf
  | .negInf, .inf => .negInf
  | .negInf, .negInf => .inf
  | .inf, .num b => if b = 0 then .nan else if 0 < b then .inf else .negInf
  | .num a, .inf => if a = 0 then .nan else if 0 < a then .inf else .negInf
  | .negInf, .num b => if b = 0 then .nan else if 0 < b then .negInf else .inf
  | .num a, .negInf => if a = 0 then .nan else if 0 < a then .negInf else .inf
  | .num a, .num b => .num (a * b)

/-- IEEE-754 division on `F` (`f64::div`).  Division by zero is not an error:
`x / 0` is `NaN` for `x = 0` and a signed infinity otherwise (the sign of the
zero divisor is not modelled; it is positive in every verified property). -/
def divF : F → F → F
  | .nan, _ => .nan
  | _, .nan => .nan
  | .inf, .inf | .inf, .negInf | .negInf, .inf | .negInf, .negInf => .nan
  | .inf, .num b => if 0 ≤ b then .inf else .negInf
  | .negInf, .num b => if 0 ≤ b then .negInf else .inf
  | .num _, .inf => .num 0
  | .num _, .negInf => .num 0
  | .num a, .num b =>
    if b = 0 then (if a = 0 then .nan else if 0 < a then .inf else .negInf)
    else .num (a / b)

/-- Truncation toward zero of a rational, as a rational (`f64` remainder is
defined through it).  `Int.div` truncates toward zero. -/
def truncQ (q : ℚ) : ℚ := (Int.tdiv q.num q.den : ℤ)

/-- IEEE-754 remainder on `F` (Rust `%` on `f64`, i.e. `fmod`): truncated
remainder `a - b * trunc(a / b)`; `x % 0` and `±∞ % y` are `NaN`, and
`a % ±∞ = a` for finite `a`.  Remainder by zero is not an error. -/
def modF : F → F → F
  | .nan, _ => .nan
  | _, .nan => .nan
  | .inf, _ => .nan
  | .negInf, _ => .nan
  | .num a, .inf => .num a
  | .num a, .negInf => .num a
  | .num a, .num b => if b = 0 then .nan else .num (a - b * truncQ (a / b))

/-- IEEE-754 `pow` on `F` (`f64::powf`).  `pow(x, 0) = 1` for every `x`
(including `NaN` and infinities); an integer exponent gives the exact integer
power; a zero base with a negative exponent gives `+∞`.  LIMITATION: for a
non-integer exponent and a positive base the true `f64` result is a rounded
transcendental value with no exact rational counterpart; this model returns
`NaN` there (for a negative base, `NaN` agrees with IEEE `pow`).  No verified
property evaluates `powF` at a non-integer exponent; the real-valued model
`modelR` covers that regime. -/
def powF : F → F → F
  | _, .num 0 => .num 1
  | .nan, _ => .nan
  | _, .nan => .nan
  | .inf, .inf => .inf
  | .inf, .negInf => .num 0
  | .negInf, .inf => .inf
  | .negInf, .negInf => .num 0
  | .inf, .num b => if 0 < b then .inf else .num 0
  | .negInf, .num b =>
    if 0 < b then (if b.den = 1 && b.num % 2 = 1 then .negInf else .inf)
    else .num 0
  | .num a, .inf => if a = 1 || a = -1 then .num 1 else if 1 < |a| then .inf else .num 0
  | .num a, .negInf => if a = 1 || a = -1 then .num 1 else if 1 < |a| then .num 0 else .inf
  | .num a, .num b =>
    if b.den = 1 then
      if a = 0 then (if 0 < b.num then .num 0 else .inf)
      else .num (a ^ b.num)
    else if a < 0 then .nan
    else .nan

/-- Exact value of the `f64` constant `std::f64::consts::PI`
(`0x400921FB54442D18`). -/
def fpi : ℚ := 884279719003555 / 281474976710656

/-- Exact value of the `f64` constant `std::f64::consts::E`
(`0x4005BF0A8B145769`). -/
def fe : ℚ := 6121026514868073 / 2251799813685248

/-- Exact `f64` floor on `F`. -/
def floorF : F → F
  | .num a => .num ⌊a⌋
  | .inf => .inf
  | .negInf => .negInf
  | .nan => .nan

/-- Exact `f64` ceil on `F`. -/
def ceilF : F → F
  | .num a => .num ⌈a⌉
  | .inf => .inf
  | .negInf => .negInf
  | .nan => .nan

/-- Exact `f64` round on `F` (`f64::round` rounds half away from zero). -/
def roundF : F → F
  | .num a => if 0 ≤ a then .num ⌊a + 1/2⌋ else .num (-⌊-a + 1/2⌋)
  | .inf => .inf
  | .negInf => .negInf
  | .nan => .nan

/-- Exact `f64` absolute value on `F`. -/
def absF : F → F
  | .num a => .num |a|
  | .inf => .inf
  | .negInf => .inf
  | .nan => .nan

/-- `f64::sqrt` on `F`, exactly where the result is rational: `sqrt` of a
ratio of perfect squares.  A negative argument gives `NaN` (IEEE).
LIMITATION: for a nonnegative non-perfect-square the true result is
irrational; this model returns `NaN` there, and no verified property
evaluates it there (the real-valued model `modelR` covers that regime). -/
def sqrtF : F → F
  | .num a =>
    if a < 0 then .nan
    else
      let n := a.num.toNat
      let d := a.den
      if Nat.sqrt n * Nat.sqrt n = n && Nat.sqrt d * Nat.sqrt d = d then
        .num ((Nat.sqrt n : ℚ) / (Nat.sqrt d : ℚ))
      else .nan
  | .inf => .inf
  | .negInf => .nan
  | .nan => .nan

/-- The bundle of `f64` operations the parser/evaluator uses.  The source
applies them directly on `f64`; the embedding abstracts the value type so
that the same parser can be read over the exact model `F` (`modelF`) and
over the real-valued idealization (`modelR`). -/
structure FloatOps (α : Type) where
  ofLit : ℚ → α
  add : α → α → α
  sub : α → α → α
  mul : α → α → α
  div : α → α → α
  mod : α → α → α
  pow : α → α → α
  neg : α → α
  sin : α → α
  cos : α → α
  tan : α → α
  asin : α → α
  acos : α → α
  atan : α → α
  sqrt : α → α
  abs : α → α
  floor : α → α
  ceil : α → α
  round : α → α
  piV : α
  eV : α

/-- `Parser::call_function`: the one-argument builtin dispatch table.  The
final arm is the source's `panic!("Unknown function")`
(UnknownFunctionError). -/
def callFunction (M : FloatOps α) (name : String) (arg : α) : Except EvalError α :=
  if name = "sin" then .ok (M.sin arg)
  else if name = "cos" then .ok (M.cos arg)
  else if name = "tan" then .ok (M.tan arg)
  else if name = "asin" then .ok (M.asin arg)
  else if name = "acos" then .ok (M.acos arg)
  else if name = "atan" then .ok (M.atan arg)
  else if name = "sqrt" then .ok (M.sqrt arg)
  else if name = "abs" then .ok (M.abs arg)
  else if name = "floor" then .ok (M.floor arg)
  else if name = "ceil" then .ok (M.ceil arg)
  else if name = "round" then .ok (M.round arg)
  else .error (.unknownFunction name)

/-- `Parser::call_constant`: the zero-argument constant table. -/
def callConstant (M : FloatOps α) (name : String) : Except EvalError α :=
  if name = "pi" then .ok M.piV
  else if name = "e" then .ok M.eV
  else .error (.unknownFunction name)

/-- The parser's symbol table (`variables: HashMap<String, f64>`), as an
association list; `insertVar` has `HashMap::insert` semantics (replace the
binding if the key is present, append it otherwise). -/
abbrev VarMap (α : Type) := List (String × α)

/-- `HashMap::insert`. -/
def insertVar (k : String) (v : α) : VarMap α → VarMap α
  | [] => [(k, v)]
  | (k', v') :: t => if k' = k then (k, v) :: t else (k', v') :: insertVar k v t

/-- `HashMap::get`. -/
def lookupVar (k : String) : VarMap α → Option α
  | [] => none
  | (k', v') :: t => if k' = k then some v' else lookupVar k t

/-- `Parser` state: the buffered lookahead token (`current_token`), the
lexer (its remaining input) and the symbol table. -/
structure PState (α : Type) where
  current : Token
  rest : List Char
  vars : VarMap α
  deriving Repr

/-- Discriminant of a token (`std::mem::discriminant`): the constructor,
ignoring the payload. -/
def kindIndex : Token → ℕ
  | .number _ => 0
  | .identifier _ => 1
  | .plus => 2
  | .minus => 3
  | .multiply => 4
  | .divide => 5
  | .modulo => 6
  | .power => 7
  | .leftParen => 8
  | .rightParen => 9
  | .comma => 10
  | .assign => 11
  | .semicolon => 12
  | .function _ => 13
  | .eof => 14

/-- `Parser::eat`: check the current token's discriminant against the
expected one, then pull the next token from the lexer; mismatch is the
source's `panic!("Expected {:?}, got {:?}")` (ParseError). -/
def eat (expected : Token) (st : PState α) : Except EvalError (PState α) :=
  if kindIndex st.current = kindIndex expected then
    match nextToken st.rest with
    | .ok (t, r) => .ok { st with current := t, rest := r }
    | .error e => .error e
  else .error (.parseError expected st.current)

/-- Names of the mutually recursive grammar procedures of `Parser`.  The two
loop rules carry the left-accumulated value of the source's `while` loops in
`term` and `expr`. -/
inductive Rule (α : Type) where
  | program
  | statement
  | assignment
  | expr
  | exprLoop (acc : α)
  | term
  | termLoop (acc : α)
  | power
  | factor

/-- The recursive-descent parser/evaluator of main.rs, all grammar procedures
fused into one function that is structurally recursive on a fuel parameter
(each branch is the body of the corresponding `Parser` method; see `Rule`).
Every recursive call burns one unit of fuel; `evaluate` supplies a budget far
beyond what any input can burn, so `EvalError.outOfFuel` never occurs in the
runs evaluated by the theorems below. -/
def run (M : FloatOps α) : ℕ → Rule α → PState α → Except EvalError (α × PState α)
  | 0, _, _ => .error .outOfFuel
  | fuel + 1, rule, st =>
    match rule with
    | .program => do
      -- Parser::parse: statements separated by semicolons, value of the last
      let (v, st1) ← run M fuel .statement st
      if st1.current = .semicolon then
        let st2 ← eat .semicolon st1
        if st2.current = .eof then .ok (v, st2)
        else run M fuel .program st2
      else .ok (v, st1)
    | .statement =>
      -- Parser::statement: one-token lookahead to spot `IDENT '='`
      match st.current with
      | .identifier _ =>
        match nextToken st.rest with
        | .error e => .error e
        | .ok (t2, _) =>
          if t2 = .assign then run M fuel .assignment st
          else run M fuel .expr st
      | _ => run M fuel .expr st
    | .assignment =>
      -- Parser::assignment: IDENTIFIER '=' expression
      match st.current with
      | .identifier name => do
        let st1 ← eat (.identifier "") st
        let st2 ← eat .assign st1
        let (v, st3) ← run M fuel .expr st2
        .ok (v, { st3 with vars := insertVar name v st3.vars })
      | _ => run M fuel .expr st
    | .expr => do
      -- Parser::expr: term (('+' | '-') term)*
      let (v, st1) ← run M fuel .term st
      run M fuel (.exprLoop v) st1
    | .exprLoop v =>
      match st.current with
      | .plus => do
        let st1 ← eat .plus st
        let (w, st2) ← run M fuel .term st1
        run M fuel (.exprLoop (M.add v w)) st2
      | .minus => do
        let st1 ← eat .minus st
        let (w, st2) ← run M fuel .term st1
        run M fuel (.exprLoop (M.sub v w)) st2
      | _ => .ok (v, st)
    | .term => do
      -- Parser::term: power (('*' | '/' | '%') power)*
      let (v, st1) ← run M fuel .power st
      run M fuel (.termLoop v) st1
    | .termLoop v =>
      match st.current with
      | .multiply => do
        let st1 ← eat .multiply st
        let (w, st2) ← run M fuel .power st1
        run M fuel (.termLoop (M.mul v w)) st2
      | .divide => do
        let st1 ← eat .divide st
        let (w, st2) ← run M fuel .power st1
        run M fuel (.termLoop (M.div v w)) st2
      | .modulo => do
        let st1 ← eat .modulo st
        let (w, st2) ← run M fuel .power st1
        run M fuel (.termLoop (M.mod v w)) st2
      | _ => .ok (v, st)
    | .power => do
      -- Parser::power: factor ('^' power)? — right associative
      let (base, st1) ← run M fuel .factor st
      if st1.current = .power then
        let st2 ← eat .power st1
        let (rhs, st3) ← run M fuel .power st2
        .ok (M.pow base rhs, st3)
      else .ok (base, st1)
    | .factor =>
      -- Parser::factor
      match st.current with
      | .number v => do
        let st1 ← eat (.number 0) st
        .ok (M.ofLit v, st1)
      | .identifier name => do
        let st1 ← eat (.identifier "") st
        match lookupVar name st1.vars with
        | some v => .ok (v, st1)
        | none => .error (.undefinedVariable name)
      | .function name => do
        let st1 ← eat (.function "") st
        let st2 ← eat .leftParen st1
        if name = "pi" || name = "e" then
          let r ← callConstant M name
          let st3 ← eat .rightParen st2
          .ok (r, st3)
        else
          let (arg, st3) ← run M fuel .expr st2
          let r ← callFunction M name arg
          let st4 ← eat .rightParen st3
          .ok (r, st4)
      | .minus => do
        let st1 ← eat .minus st
        let (v, st2) ← run M fuel .factor st1
        .ok (M.neg v, st2)
      | .leftParen => do
        let st1 ← eat .leftParen st
        let (v, st2) ← run M fuel .expr st1
        let st3 ← eat .rightParen st2
        .ok (v, st3)
      | t => .error (.unexpectedToken t)

/-- Modelled from the spec: the public contract
`evaluate(text, initial_variables) -> (result, final_variables)` (§4.2).
It is realized by `Lexer::new` + `Parser::new` (which primes `current_token`
with the first token; a lexer panic there aborts the call), seeding the
parser's symbol table with the caller's snapshot, `Parser::parse`, and
reading the final symbol table back.  The seeding and the read-back
correspond to `Parser::set_variables` / `Parser::get_variables`, which
cli.rs calls but which are missing from the sources under `src/`; following
the spec (§3, §4.3) they are modelled as a plain setter and getter of
`Parser::variables`. -/
def evaluate (M : FloatOps α) (input : String) (vars : VarMap α) :
    Except EvalError (α × VarMap α) :=
  let chars := input.toList
  match nextToken chars with
  | .error e => .error e
  | .ok (t, r) =>
    match run M (10 * chars.length + 100) .program ⟨t, r, vars⟩ with
    | .ok (v, st) => .ok (v, st.vars)
    | .error e => .error e

/-- The session store of cli.rs: `CalculatorCLI` owns the variable snapshot
that survives across evaluation calls. -/
structure CalculatorCLI (α : Type) where
  vars : VarMap α

/-- `CalculatorCLI::evaluate_expression`: build a fresh lexer/parser, seed it
with the stored snapshot, parse inside `catch_unwind`; on success replace the
snapshot with the parser's final variables, on any panic return
`Err("Invalid expression")` and leave the snapshot untouched.  (In the
source, `Parser::new` lexes the first token before the `catch_unwind`
closure, so a lex error in the very first token would abort the process
instead of returning `Err`; this embedding returns `Err` for that case too —
under both behaviors the stored snapshot is not modified, which is what the
atomicity claim asserts.  The structure field is named `vars` because `variables`
is a reserved command name here; the source names it `variables`.) -/
def evaluateExpression (M : FloatOps α) (cli : CalculatorCLI α) (input : String) :
    Except String α × CalculatorCLI α :=
  match evaluate M input cli.vars with
  | .ok (v, vars') => (.ok v, { vars := vars' })
  | .error _ => (.error "Invalid expression", cli)

/-- The exact instantiation: `f64` as `F`.  The six trigonometric names are
mapped to `NaN` — their true values are irrational, outside this model; no
theorem evaluates them over `modelF` (the real-valued `modelR` covers them).
Everything else is the exact IEEE semantics of the corresponding `f64`
operation. -/
def modelF : FloatOps F where
  ofLit q := .num q
  add := addF
  sub := subF
  mul := mulF
  div := divF
  mod := modF
  pow := powF
  neg := negF
  sin _ := .nan
  cos _ := .nan
  tan _ := .nan
  asin _ := .nan
  acos _ := .nan
  atan _ := .nan
  sqrt := sqrtF
  abs := absF
  floor := floorF
  ceil := ceilF
  round := roundF
  piV := .num fpi
  eV := .num fe

/-- Truncation toward zero on ℝ. -/
noncomputable def truncR (x : ℝ) : ℝ := if 0 ≤ x then (⌊x⌋ : ℤ) else (⌈x⌉ : ℤ)

/-- The real-valued idealization: `f64` as ℝ, the library functions as the
real functions they approximate, the constants as the exact rational values
of the `f64` constants.  Used for the claims about transcendental results
(which hold with a 10⁻⁹ tolerance absorbing the `f64` rounding).
LIMITATION: division is the real-field division (`x / 0 = 0` rather than a
signed infinity); the division/remainder-by-zero claims are settled over the
exact model `modelF`, never over `modelR`. -/
noncomputable def modelR : FloatOps ℝ where
  ofLit q := (q : ℝ)
  add a b := a + b
  sub a b := a - b
  mul a b := a * b
  div a b := a / b
  mod a b := a - b * truncR (a / b)
  pow a b := a ^ b
  neg a := -a
  sin := Real.sin
  cos := Real.cos
  tan := Real.tan
  asin := Real.arcsin
  acos := Real.arccos
  atan := Real.arctan
  sqrt := Real.sqrt
  abs a := |a|
  floor a := (⌊a⌋ : ℤ)
  ceil a := (⌈a⌉ : ℤ)
  round a := if 0 ≤ a then ((⌊a + 1/2⌋ : ℤ) : ℝ) else -((⌊-a + 1/2⌋ : ℤ) : ℝ)
  piV := (fpi : ℝ)
  eV := (fe : ℝ)

/-! ## Decimal rendering of natural numbers

`natStr n` is the usual decimal spelling of `n`; it lets the claims that
quantify over operands ("for all operands, `a^b^c` evaluates as `a^(b^c)`")
be stated over genuine input strings. -/

/-- Decimal digits of `n`, most significant first. -/
def natChars (n : ℕ) : List Char :=
  if n = 0 then ['0'] else (Nat.digits 10 n).reverse.map Nat.digitChar

/-- Decimal spelling of `n`. -/
def natStr (n : ℕ) : String := String.mk (natChars n)

theorem natChars_ne_nil (n : ℕ) : natChars n ≠ [] := by
  unfold natChars
  split
  · simp
  · simpa [Nat.digits_ne_nil_iff_ne_zero] using (by assumption : ¬ n = 0)

theorem mem_natChars_digit {n : ℕ} {c : Char} (hc : c ∈ natChars n) :
    ∃ d, d < 10 ∧ c = Nat.digitChar d := by
  unfold natChars at hc
  split at hc
  · have : c = '0' := by simpa using hc
    exact ⟨0, by norm_num, this⟩
  · obtain ⟨d, hd, rfl⟩ := List.mem_map.mp hc
    exact ⟨d, Nat.digits_lt_base (by norm_num) (List.mem_reverse.mp hd), rfl⟩

theorem digitChar_isDigit {d : ℕ} (h : d < 10) : (Nat.digitChar d).isDigit = true := by
  interval_cases d <;> decide

theorem digitChar_toNat {d : ℕ} (h : d < 10) : (Nat.digitChar d).toNat - 48 = d := by
  interval_cases d <;> decide

theorem natChars_all_digit {n : ℕ} {c : Char} (hc : c ∈ natChars n) :
    c.isDigit = true := by
  obtain ⟨d, hd, rfl⟩ := mem_natChars_digit hc
  exact digitChar_isDigit hd

/-! ## takeWhile / dropWhile over a fully satisfying prefix -/

theorem takeWhile_all_append (p : Char → Bool) (l₁ l₂ : List Char)
    (h : ∀ c ∈ l₁, p c = true) :
    (l₁ ++ l₂).takeWhile p = l₁ ++ l₂.takeWhile p := by
  induction l₁ with
  | nil => simp
  | cons c t ih =>
    simp only [List.cons_append, List.takeWhile_cons, h c (by simp)]
    simpa using ih (fun c hc => h c (by simp [hc]))

theorem dropWhile_all_append (p : Char → Bool) (l₁ l₂ : List Char)
    (h : ∀ c ∈ l₁, p c = true) :
    (l₁ ++ l₂).dropWhile p = l₂.dropWhile p := by
  induction l₁ with
  | nil => simp
  | cons c t ih =>
    simp only [List.cons_append, List.dropWhile_cons, h c (by simp)]
    simpa using ih (fun c hc => h c (by simp [hc]))

/-! ## The value of a rendered literal -/

theorem valDigits_append (l : List Char) (c : Char) :
    valDigits (l ++ [c]) = 10 * valDigits l + (c.toNat - 48) := by
  simp [valDigits, List.foldl_append]

theorem valDigits_reverse_map (l : List ℕ) (h : ∀ d ∈ l, d < 10) :
    valDigits ((l.map Nat.digitChar).reverse) = Nat.ofDigits 10 l := by
  induction l with
  | nil => simp [valDigits, Nat.ofDigits]
  | cons d t ih =>
    have hd : d < 10 := h d (by simp)
    simp only [List.map_cons, List.reverse_cons, valDigits_append,
      ih (fun d hd => h d (by simp [hd])), Nat.ofDigits_cons, digitChar_toNat hd]
    ring

theorem valDigits_natChars (n : ℕ) : valDigits (natChars n) = n := by
  unfold natChars
  split
  · simp [valDigits, *]
  · rw [List.map_reverse, valDigits_reverse_map _
      (fun d hd => Nat.digits_lt_base (by norm_num) hd), Nat.ofDigits_digits]

theorem isDigit_ne_dot {c : Char} (h : c.isDigit = true) : ¬ c = '.' := by
  rintro rfl; simp at h

theorem parseNumber_natChars (n : ℕ) : parseNumber (natChars n) = (n : ℚ) := by
  have hdig : ∀ c ∈ natChars n, c.isDigit = true := fun c hc => natChars_all_digit hc
  have hvalid : numValid (natChars n) = true := by
    have : (natChars n).filter (· = '.') = [] := by
      rw [List.filter_eq_nil_iff]
      intro c hc
      simpa using isDigit_ne_dot (hdig c hc)
    simp [numValid, this]
  have htake : (natChars n).takeWhile (·.isDigit) = natChars n :=
    List.takeWhile_eq_self_iff.mpr hdig
  rw [parseNumber, if_pos hvalid]
  simp only [htake, List.drop_length, List.drop_nil, valDigits_natChars]
  norm_num [valDigits]

/-- Boundary condition after a numeric literal: the remaining input does not
begin with a digit or a decimal point, so `read_number` stops exactly at the
literal. -/
def numBoundary : List Char → Bool
  | [] => true
  | c :: _ => !(isNumChar c)

theorem takeWhile_num_nil {rest : List Char} (h : numBoundary rest = true) :
    rest.takeWhile isNumChar = [] := by
  cases rest with
  | nil => rfl
  | cons c t => simp only [numBoundary, Bool.not_eq_true'] at h; simp [List.takeWhile_cons, h]

theorem dropWhile_num_self {rest : List Char} (h : numBoundary rest = true) :
    rest.dropWhile isNumChar = rest := by
  cases rest with
  | nil => rfl
  | cons c t => simp only [numBoundary, Bool.not_eq_true'] at h; simp [List.dropWhile_cons, h]

/-- A digit under the lexer's cursor: `next_token` reads the maximal
digits-and-dots run and emits a `Number` token carrying its parsed value —
never an error, whether or not the run is a well-formed literal. -/
theorem nextToken_digit {c : Char} (h : c.isDigit = true) (l : List Char) :
    nextToken (c :: l) =
      .ok (.number (parseNumber ((c :: l).takeWhile isNumChar)),
        (c :: l).dropWhile isNumChar) := by
  have ne : ∀ x : Char, x.isDigit = false → ¬ c = x := by
    rintro x hx rfl; simp [h] at hx
  have aux : nextTokenAux (c :: l) =
      .ok (.number (parseNumber ((c :: l).takeWhile isNumChar)),
        (c :: l).dropWhile isNumChar) := by
    simp [nextTokenAux, readNumber, h,
      ne '+' (by decide), ne '-' (by decide), ne '*' (by decide),
      ne '/' (by decide), ne '^' (by decide), ne '%' (by decide),
      ne '(' (by decide), ne ')' (by decide), ne '=' (by decide),
      ne ';' (by decide), ne ',' (by decide)]
  simp [nextToken, ne ' ' (by decide), ne '\t' (by decide), ne '\n' (by decide), aux]

/-- Lexing a rendered literal: `natChars n` followed by a non-numeric
boundary lexes to one `Number` token of value `n`. -/
theorem nextToken_natChars (n : ℕ) (rest : List Char) (hrest : numBoundary rest = true) :
    nextToken (natChars n ++ rest) = .ok (.number (n : ℚ), rest) := by
  obtain ⟨c, t, hct⟩ := List.exists_cons_of_ne_nil (natChars_ne_nil n)
  have hnum : ∀ x ∈ natChars n, isNumChar x = true := by
    intro x hx; simp [isNumChar, natChars_all_digit hx]
  have hc : c.isDigit = true := natChars_all_digit (by rw [hct]; simp)
  rw [hct, List.cons_append, nextToken_digit hc,
    show c :: (t ++ rest) = (c :: t) ++ rest from rfl, ← hct,
    takeWhile_all_append _ _ _ hnum, dropWhile_all_append _ _ _ hnum,
    takeWhile_num_nil hrest, dropWhile_num_self hrest, List.append_nil,
    parseNumber_natChars]

/-! ## Pre-tokenized replay of the parser

The parser pulls tokens from the lexer on demand.  To reason about inputs
containing several symbolically rendered literals, `runT` replays the same
recursive descent over an already-lexed token list, and `run_sim` proves that
on any character input that lexes to that token list (relation `Lexes`) the
two agree step for step — same result value, same errors, same final
variables.  `runT` is proof infrastructure, not part of the embedding of the
source; `run` is the embedding. -/

/-- Parser state over a pre-lexed token stream. -/
structure TState (α : Type) where
  current : Token
  toks : List Token
  vars : VarMap α

/-- Pull the next token from a pre-lexed stream; an exhausted stream yields
`EOF` (as the lexer does at the end of input). -/
def nextT : List Token → Token × List Token
  | [] => (.eof, [])
  | t :: ts => (t, ts)

/-- `eat` over a pre-lexed stream. -/
def eatT (expected : Token) (tt : TState α) : Except EvalError (TState α) :=
  if kindIndex tt.current = kindIndex expected then
    .ok ⟨(nextT tt.toks).1, (nextT tt.toks).2, tt.vars⟩
  else .error (.parseError expected tt.current)

/-- The recursive descent of `run`, replayed over a pre-lexed token stream
(identical control structure and fuel discipline). -/
def runT (M : FloatOps α) : ℕ → Rule α → TState α → Except EvalError (α × TState α)
  | 0, _, _ => .error .outOfFuel
  | fuel + 1, rule, tt =>
    match rule with
    | .program => do
      let (v, tt1) ← runT M fuel .statement tt
      if tt1.current = .semicolon then do
        let tt2 ← eatT .semicolon tt1
        if tt2.current = .eof then .ok (v, tt2)
        else runT M fuel .program tt2
      else .ok (v, tt1)
    | .statement =>
      match tt.current with
      | .identifier _ =>
        if (nextT tt.toks).1 = .assign then runT M fuel .assignment tt
        else runT M fuel .expr tt
      | _ => runT M fuel .expr tt
    | .assignment =>
      match tt.current with
      | .identifier name => do
        let tt1 ← eatT (.identifier "") tt
        let tt2 ← eatT .assign tt1
        let (v, tt3) ← runT M fuel .expr tt2
        .ok (v, { tt3 with vars := insertVar name v tt3.vars })
      | _ => runT M fuel .expr tt
    | .expr => do
      let (v, tt1) ← runT M fuel .term tt
      runT M fuel (.exprLoop v) tt1
    | .exprLoop v =>
      match tt.current with
      | .plus => do
        let tt1 ← eatT .plus tt
        let (w, tt2) ← runT M fuel .term tt1
        runT M fuel (.exprLoop (M.add v w)) tt2
      | .minus => do
        let tt1 ← eatT .minus tt
        let (w, tt2) ← runT M fuel .term tt1
        runT M fuel (.exprLoop (M.sub v w)) tt2
      | _ => .ok (v, tt)
    | .term => do
      let (v, tt1) ← runT M fuel .power tt
      runT M fuel (.termLoop v) tt1
    | .termLoop v =>
      match tt.current with
      | .multiply => do
        let tt1 ← eatT .multiply tt
        let (w, tt2) ← runT M fuel .power tt1
        runT M fuel (.termLoop (M.mul v w)) tt2
      | .divide => do
        let tt1 ← eatT .divide tt
        let (w, tt2) ← runT M fuel .power tt1
        runT M fuel (.termLoop (M.div v w)) tt2
      | .modulo => do
        let tt1 ← eatT .modulo tt
        let (w, tt2) ← runT M fuel .power tt1
        runT M fuel (.termLoop (M.mod v w)) tt2
      | _ => .ok (v, tt)
    | .power => do
      let (base, tt1) ← runT M fuel .factor tt
      if tt1.current = .power then do
        let tt2 ← eatT .power tt1
        let (rhs, tt3) ← runT M fuel .power tt2
        .ok (M.pow base rhs, tt3)
      else .ok (base, tt1)
    | .factor =>
      match tt.current with
      | .number v => do
        let tt1 ← eatT (.number 0) tt
        .ok (M.ofLit v, tt1)
      | .identifier name => do
        let tt1 ← eatT (.identifier "") tt
        match lookupVar name tt1.vars with
        | some v => .ok (v, tt1)
        | none => .error (.undefinedVariable name)
      | .function name => do
        let tt1 ← eatT (.function "") tt
        let tt2 ← eatT .leftParen tt1
        if name = "pi" || name = "e" then
          let r ← callConstant M name
          let tt3 ← eatT .rightParen tt2
          .ok (r, tt3)
        else
          let (arg, tt3) ← runT M fuel .expr tt2
          let r ← callFunction M name arg
          let tt4 ← eatT .rightParen tt3
          .ok (r, tt4)
      | .minus => do
        let tt1 ← eatT .minus tt
        let (v, tt2) ← runT M fuel .factor tt1
        .ok (M.neg v, tt2)
      | .leftParen => do
        let tt1 ← eatT .leftParen tt
        let (v, tt2) ← runT M fuel .expr tt1
        let tt3 ← eatT .rightParen tt2
        .ok (v, tt3)
      | t => .error (.unexpectedToken t)

/-- A character input lexes to a token list: repeated `nextToken` calls
deliver exactly these tokens and consume the whole input (every evaluated
input below ends exactly at the end of the character list). -/
inductive Lexes : List Char → List Token → Prop
  | nil : Lexes [] []
  | step {l l' : List Char} {t : Token} {ts : List Token} :
      nextToken l = .ok (t, l') → Lexes l' ts → Lexes l (t :: ts)

/-- Relation between a lazily lexing parser state and its pre-lexed
counterpart: same lookahead token, same variables, and the remaining
characters lex to the remaining tokens. -/
def StRel (st : PState α) (tt : TState α) : Prop :=
  st.current = tt.current ∧ st.vars = tt.vars ∧ Lexes st.rest tt.toks

/-- Relating the two parsers' results: identical errors, or identical values
with related final states. -/
def ExRel (R : β → γ → Prop) : Except EvalError β → Except EvalError γ → Prop
  | .error e, .error e' => e = e'
  | .ok b, .ok c => R b c
  | _, _ => False

theorem ExRel_bind {R : β → γ → Prop} {S : β' → γ' → Prop}
    {x : Except EvalError β} {y : Except EvalError γ}
    (h : ExRel R x y) {f : β → Except EvalError β'} {g : γ → Except EvalError γ'}
    (hfg : ∀ b c, R b c → ExRel S (f b) (g c)) :
    ExRel S (x >>= f) (y >>= g) := by
  cases x <;> cases y <;> simp only [ExRel] at h ⊢ <;>
    first
    | exact h
    | exact h.elim
    | exact hfg _ _ h

theorem eat_sim {st : PState α} {tt : TState α} (h : StRel st tt) (expected : Token) :
    ExRel StRel (eat expected st) (eatT expected tt) := by
  obtain ⟨c1, l, v1⟩ := st
  obtain ⟨c2, ts, v2⟩ := tt
  obtain ⟨hc, hv, hlex⟩ := h
  simp only at hc hv hlex
  subst hc; subst hv
  by_cases hk : kindIndex c1 = kindIndex expected
  · cases hlex with
    | nil =>
      simp only [eat, eatT, hk, if_pos, nextT, nextToken]
      exact ⟨rfl, rfl, Lexes.nil⟩
    | step hn hrest =>
      simp only [eat, eatT, hk, if_pos, hn, nextT]
      exact ⟨rfl, rfl, hrest⟩
  · simp only [eat, eatT, hk, if_neg, ExRel, not_false_iff]

theorem ExRel_same (x : Except EvalError β) : ExRel Eq x x := by
  cases x <;> simp [ExRel]

/-- The lazily lexing parser and its pre-lexed replay agree: on related
states they produce identical errors, or identical values with related final
states (in particular identical final variable snapshots). -/
theorem run_sim (M : FloatOps α) :
    ∀ (fuel : ℕ) (rule : Rule α) (st : PState α) (tt : TState α), StRel st tt →
      ExRel (fun p q => p.1 = q.1 ∧ StRel p.2 q.2)
        (run M fuel rule st) (runT M fuel rule tt) := by
  intro fuel
  induction fuel with
  | zero => intro rule st tt _; exact rfl
  | succ n IH =>
    intro rule st tt hrel
    obtain ⟨c1, l, v1⟩ := st
    obtain ⟨c2, ts, v2⟩ := tt
    obtain ⟨hc, hv, hlex⟩ := hrel
    dsimp only at hc hv hlex
    subst hc; subst hv
    cases rule with
    | program =>
      simp only [run, runT]
      apply ExRel_bind (IH .statement _ _ ⟨rfl, rfl, hlex⟩)
      rintro ⟨v, st1⟩ ⟨w, tt1⟩ ⟨hvw, hrel1⟩
      dsimp only at hvw ⊢
      subst hvw
      rw [hrel1.1]
      by_cases hsc : tt1.current = .semicolon
      · rw [if_pos hsc, if_pos hsc]
        apply ExRel_bind (eat_sim hrel1 .semicolon)
        intro st2 tt2 hrel2
        rw [hrel2.1]
        by_cases heof : tt2.current = .eof
        · rw [if_pos heof, if_pos heof]; exact ⟨rfl, hrel2⟩
        · rw [if_neg heof, if_neg heof]; exact IH .program _ _ hrel2
      · rw [if_neg hsc, if_neg hsc]; exact ⟨rfl, hrel1⟩
    | statement =>
      simp only [run, runT]
      cases c1 with
      | identifier name =>
        cases hlex with
        | nil =>
          rw [show nextToken ([] : List Char) = .ok (.eof, []) from rfl]
          dsimp only [nextT]
          rw [if_neg (by decide), if_neg (by decide)]
          exact IH .expr _ _ ⟨rfl, rfl, Lexes.nil⟩
        | @step _ l' t ts hn hrest =>
          rw [hn]
          dsimp only [nextT]
          by_cases ha : t = Token.assign
          · rw [if_pos ha, if_pos ha]
            exact IH .assignment _ _ ⟨rfl, rfl, .step hn hrest⟩
          · rw [if_neg ha, if_neg ha]
            exact IH .expr _ _ ⟨rfl, rfl, .step hn hrest⟩
      | number q => exact IH .expr _ _ ⟨rfl, rfl, hlex⟩
      | plus => exact IH .expr _ _ ⟨rfl, rfl, hlex⟩
      | minus => exact IH .expr _ _ ⟨rfl, rfl, hlex⟩
      | multiply => exact IH .expr _ _ ⟨rfl, rfl, hlex⟩
      | divide => exact IH .expr _ _ ⟨rfl, rfl, hlex⟩
      | modulo => exact IH .expr _ _ ⟨rfl, rfl, hlex⟩
      | power => exact IH .expr _ _ ⟨rfl, rfl, hlex⟩
      | leftParen => exact IH .expr _ _ ⟨rfl, rfl, hlex⟩
      | rightParen => exact IH .expr _ _ ⟨rfl, rfl, hlex⟩
      | comma => exact IH .expr _ _ ⟨rfl, rfl, hlex⟩
      | assign => exact IH .expr _ _ ⟨rfl, rfl, hlex⟩
      | semicolon => exact IH .expr _ _ ⟨rfl, rfl, hlex⟩
      | function name => exact IH .expr _ _ ⟨rfl, rfl, hlex⟩
      | eof => exact IH .expr _ _ ⟨rfl, rfl, hlex⟩
    | assignment =>
      simp only [run, runT]
      cases c1 with
      | identifier name =>
        apply ExRel_bind (eat_sim ⟨rfl, rfl, hlex⟩ (.identifier ""))
        intro st1 tt1 hrel1
        try dsimp only
        apply ExRel_bind (eat_sim hrel1 .assign)
        intro st2 tt2 hrel2
        try dsimp only
        apply ExRel_bind (IH .expr _ _ hrel2)
        rintro ⟨v, st3⟩ ⟨w, tt3⟩ ⟨hvw, hrel3⟩
        dsimp only at hvw ⊢
        subst hvw
        exact ⟨rfl, hrel3.1, by rw [hrel3.2.1], hrel3.2.2⟩
      | number q => exact IH .expr _ _ ⟨rfl, rfl, hlex⟩
      | plus => exact IH .expr _ _ ⟨rfl, rfl, hlex⟩
      | minus => exact IH .expr _ _ ⟨rfl, rfl, hlex⟩
      | multiply => exact IH .expr _ _ ⟨rfl, rfl, hlex⟩
      | divide => exact IH .expr _ _ ⟨rfl, rfl, hlex⟩
      | modulo => exact IH .expr _ _ ⟨rfl, rfl, hlex⟩
      | power => exact IH .expr _ _ ⟨rfl, rfl, hlex⟩
      | leftParen => exact IH .expr _ _ ⟨rfl, rfl, hlex⟩
      | rightParen => exact IH .expr _ _ ⟨rfl, rfl, hlex⟩
      | comma => exact IH .expr _ _ ⟨rfl, rfl, hlex⟩
      | assign => exact IH .expr _ _ ⟨rfl, rfl, hlex⟩
      | semicolon => exact IH .expr _ _ ⟨rfl, rfl, hlex⟩
      | function name => exact IH .expr _ _ ⟨rfl, rfl, hlex⟩
      | eof => exact IH .expr _ _ ⟨rfl, rfl, hlex⟩
    | expr =>
      simp only [run, runT]
      apply ExRel_bind (IH .term _ _ ⟨rfl, rfl, hlex⟩)
      rintro ⟨v, st1⟩ ⟨w, tt1⟩ ⟨hvw, hrel1⟩
      dsimp only at hvw ⊢
      subst hvw
      exact IH (.exprLoop v) _ _ hrel1
    | exprLoop v =>
      simp only [run, runT]
      cases c1 with
      | plus =>
        apply ExRel_bind (eat_sim ⟨rfl, rfl, hlex⟩ .plus)
        intro st1 tt1 hrel1
        try dsimp only
        apply ExRel_bind (IH .term _ _ hrel1)
        rintro ⟨x, st2⟩ ⟨y, tt2⟩ ⟨hxy, hrel2⟩
        dsimp only at hxy ⊢
        subst hxy
        exact IH (.exprLoop (M.add v x)) _ _ hrel2
      | minus =>
        apply ExRel_bind (eat_sim ⟨rfl, rfl, hlex⟩ .minus)
        intro st1 tt1 hrel1
        try dsimp only
        apply ExRel_bind (IH .term _ _ hrel1)
        rintro ⟨x, st2⟩ ⟨y, tt2⟩ ⟨hxy, hrel2⟩
        dsimp only at hxy ⊢
        subst hxy
        exact IH (.exprLoop (M.sub v x)) _ _ hrel2
      | number q => exact ⟨rfl, rfl, rfl, hlex⟩
      | identifier name => exact ⟨rfl, rfl, rfl, hlex⟩
      | multiply => exact ⟨rfl, rfl, rfl, hlex⟩
      | divide => exact ⟨rfl, rfl, rfl, hlex⟩
      | modulo => exact ⟨rfl, rfl, rfl, hlex⟩
      | power => exact ⟨rfl, rfl, rfl, hlex⟩
      | leftParen => exact ⟨rfl, rfl, rfl, hlex⟩
      | rightParen => exact ⟨rfl, rfl, rfl, hlex⟩
      | comma => exact ⟨rfl, rfl, rfl, hlex⟩
      | assign => exact ⟨rfl, rfl, rfl, hlex⟩
      | semicolon => exact ⟨rfl, rfl, rfl, hlex⟩
      | function name => exact ⟨rfl, rfl, rfl, hlex⟩
      | eof => exact ⟨rfl, rfl, rfl, hlex⟩
    | term =>
      simp only [run, runT]
      apply ExRel_bind (IH .power _ _ ⟨rfl, rfl, hlex⟩)
      rintro ⟨v, st1⟩ ⟨w, tt1⟩ ⟨hvw, hrel1⟩
      dsimp only at hvw ⊢
      subst hvw
      exact IH (.termLoop v) _ _ hrel1
    | termLoop v =>
      simp only [run, runT]
      cases c1 with
      | multiply =>
        apply ExRel_bind (eat_sim ⟨rfl, rfl, hlex⟩ .multiply)
        intro st1 tt1 hrel1
        try dsimp only
        apply ExRel_bind (IH .power _ _ hrel1)
        rintro ⟨x, st2⟩ ⟨y, tt2⟩ ⟨hxy, hrel2⟩
        dsimp only at hxy ⊢
        subst hxy
        exact IH (.termLoop (M.mul v x)) _ _ hrel2
      | divide =>
        apply ExRel_bind (eat_sim ⟨rfl, rfl, hlex⟩ .divide)
        intro st1 tt1 hrel1
        try dsimp only
        apply ExRel_bind (IH .power _ _ hrel1)
        rintro ⟨x, st2⟩ ⟨y, tt2⟩ ⟨hxy, hrel2⟩
        dsimp only at hxy ⊢
        subst hxy
        exact IH (.termLoop (M.div v x)) _ _ hrel2
      | modulo =>
        apply ExRel_bind (eat_sim ⟨rfl, rfl, hlex⟩ .modulo)
        intro st1 tt1 hrel1
        try dsimp only
        apply ExRel_bind (IH .power _ _ hrel1)
        rintro ⟨x, st2⟩ ⟨y, tt2⟩ ⟨hxy, hrel2⟩
        dsimp only at hxy ⊢
        subst hxy
        exact IH (.termLoop (M.mod v x)) _ _ hrel2
      | number q => exact ⟨rfl, rfl, rfl, hlex⟩
      | identifier name => exact ⟨rfl, rfl, rfl, hlex⟩
      | plus => exact ⟨rfl, rfl, rfl, hlex⟩
      | minus => exact ⟨rfl, rfl, rfl, hlex⟩
      | power => exact ⟨rfl, rfl, rfl, hlex⟩
      | leftParen => exact ⟨rfl, rfl, rfl, hlex⟩
      | rightParen => exact ⟨rfl, rfl, rfl, hlex⟩
      | comma => exact ⟨rfl, rfl, rfl, hlex⟩
      | assign => exact ⟨rfl, rfl, rfl, hlex⟩
      | semicolon => exact ⟨rfl, rfl, rfl, hlex⟩
      | function name => exact ⟨rfl, rfl, rfl, hlex⟩
      | eof => exact ⟨rfl, rfl, rfl, hlex⟩
    | power =>
      simp only [run, runT]
      apply ExRel_bind (IH .factor _ _ ⟨rfl, rfl, hlex⟩)
      rintro ⟨v, st1⟩ ⟨w, tt1⟩ ⟨hvw, hrel1⟩
      dsimp only at hvw ⊢
      subst hvw
      rw [hrel1.1]
      by_cases hp : tt1.current = .power
      · rw [if_pos hp, if_pos hp]
        apply ExRel_bind (eat_sim hrel1 .power)
        intro st2 tt2 hrel2
        try dsimp only
        apply ExRel_bind (IH .power _ _ hrel2)
        rintro ⟨x, st3⟩ ⟨y, tt3⟩ ⟨hxy, hrel3⟩
        dsimp only at hxy ⊢
        subst hxy
        exact ⟨rfl, hrel3⟩
      · rw [if_neg hp, if_neg hp]
        exact ⟨rfl, hrel1⟩
    | factor =>
      simp only [run, runT]
      cases c1 with
      | number q =>
        apply ExRel_bind (eat_sim ⟨rfl, rfl, hlex⟩ (.number 0))
        intro st1 tt1 hrel1
        exact ⟨rfl, hrel1⟩
      | identifier name =>
        apply ExRel_bind (eat_sim ⟨rfl, rfl, hlex⟩ (.identifier ""))
        intro st1 tt1 hrel1
        rw [hrel1.2.1]
        cases lookupVar name tt1.vars with
        | some v => exact ⟨rfl, hrel1⟩
        | none => exact rfl
      | function name =>
        apply ExRel_bind (eat_sim ⟨rfl, rfl, hlex⟩ (.function ""))
        intro st1 tt1 hrel1
        try dsimp only
        apply ExRel_bind (eat_sim hrel1 .leftParen)
        intro st2 tt2 hrel2
        try dsimp only
        by_cases hpe : (name = "pi" || name = "e") = true
        · rw [if_pos hpe, if_pos hpe]
          apply ExRel_bind (ExRel_same (callConstant M name))
          rintro r r' rfl
          try dsimp only
          apply ExRel_bind (eat_sim hrel2 .rightParen)
          intro st3 tt3 hrel3
          exact ⟨rfl, hrel3⟩
        · rw [if_neg hpe, if_neg hpe]
          apply ExRel_bind (IH .expr _ _ hrel2)
          rintro ⟨v, st3⟩ ⟨w, tt3⟩ ⟨hvw, hrel3⟩
          dsimp only at hvw ⊢
          subst hvw
          apply ExRel_bind (ExRel_same (callFunction M name v))
          rintro r r' rfl
          try dsimp only
          apply ExRel_bind (eat_sim hrel3 .rightParen)
          intro st4 tt4 hrel4
          exact ⟨rfl, hrel4⟩
      | minus =>
        apply ExRel_bind (eat_sim ⟨rfl, rfl, hlex⟩ .minus)
        intro st1 tt1 hrel1
        try dsimp only
        apply ExRel_bind (IH .factor _ _ hrel1)
        rintro ⟨v, st2⟩ ⟨w, tt2⟩ ⟨hvw, hrel2⟩
        dsimp only at hvw ⊢
        subst hvw
        exact ⟨rfl, hrel2⟩
      | leftParen =>
        apply ExRel_bind (eat_sim ⟨rfl, rfl, hlex⟩ .leftParen)
        intro st1 tt1 hrel1
        try dsimp only
        apply ExRel_bind (IH .expr _ _ hrel1)
        rintro ⟨v, st2⟩ ⟨w, tt2⟩ ⟨hvw, hrel2⟩
        dsimp only at hvw ⊢
        subst hvw
        apply ExRel_bind (eat_sim hrel2 .rightParen)
        intro st3 tt3 hrel3
        exact ⟨rfl, hrel3⟩
      | plus => exact rfl
      | multiply => exact rfl
      | divide => exact rfl
      | modulo => exact rfl
      | power => exact rfl
      | rightParen => exact rfl
      | comma => exact rfl
      | assign => exact rfl
      | semicolon => exact rfl
      | eof => exact rfl

/-- A rendered literal at the very end of the input. -/
theorem nextToken_natChars_nil (n : ℕ) :
    nextToken (natChars n) = .ok (.number (n : ℚ), []) := by
  simpa using nextToken_natChars n [] rfl

/-- Evaluation through the pre-lexed replay: when the input lexes to
`t :: ts`, `evaluate` is the replay of the token stream. -/
theorem evaluate_sim (M : FloatOps α) (input : String) (vars : VarMap α)
    (t : Token) (ts : List Token) (l' : List Char)
    (hn : nextToken input.toList = .ok (t, l'))
    (hrest : Lexes l' ts) :
    evaluate M input vars =
      (match runT M (10 * input.toList.length + 100) .program ⟨t, ts, vars⟩ with
       | .ok (v, tt) => .ok (v, tt.vars)
       | .error e => .error e) := by
  have rel := run_sim M (10 * input.toList.length + 100) .program ⟨t, l', vars⟩
    ⟨t, ts, vars⟩ ⟨rfl, rfl, hrest⟩
  simp only [evaluate, hn]
  cases hx : run M (10 * input.toList.length + 100) .program ⟨t, l', vars⟩ with
  | error e =>
    cases hy : runT M (10 * input.toList.length + 100) .program ⟨t, ts, vars⟩ with
    | error e' =>
      rw [hx, hy] at rel
      simp only [ExRel] at rel
      rw [rel]
    | ok q =>
      rw [hx, hy] at rel
      simp only [ExRel] at rel
  | ok p =>
    obtain ⟨v, st⟩ := p
    cases hy : runT M (10 * input.toList.length + 100) .program ⟨t, ts, vars⟩ with
    | error e' =>
      rw [hx, hy] at rel
      simp only [ExRel] at rel
    | ok q =>
      obtain ⟨w, tt⟩ := q
      rw [hx, hy] at rel
      simp only [ExRel] at rel
      obtain ⟨hvw, hst⟩ := rel
      dsimp only at hvw ⊢
      rw [hvw, hst.2.1]

/-! ## The claims -/

set_option maxRecDepth 10000

/-- C1.  A multi-statement input is evaluated left to right with assignments
visible to later statements in the same call; the value of the last statement
and the final snapshot are returned.  Generally, for all rendered operands
`a`, `b`, the program `x=a;y=x+b;x*y` returns `a*(a+b)` with snapshot
`{x: a, y: a+b}`; in particular `evaluate("x = 5; y = x + 2; x * y")` is
`35` with snapshot `{x: 5, y: 7}`. -/
theorem claim_C1 :
    (∀ a b : ℕ,
      evaluate modelF ("x=" ++ natStr a ++ ";y=x+" ++ natStr b ++ ";x*y") [] =
        .ok (mulF (.num a) (addF (.num a) (.num b)),
          [("x", F.num a), ("y", addF (.num a) (.num b))])) ∧
    (∀ a b : ℕ, mulF (.num a) (addF (.num a) (.num b)) = .num (a * (a + b))) ∧
    evaluate modelF "x = 5; y = x + 2; x * y" [] =
      .ok (F.num 35, [("x", F.num 5), ("y", F.num 7)]) := by
  refine ⟨?_, fun a b => by simp [mulF, addF], by with_unfolding_all rfl⟩
  intro a b
  have hlist : ("x=" ++ natStr a ++ ";y=x+" ++ natStr b ++ ";x*y").toList =
      'x' :: '=' :: (natChars a ++
        ';' :: 'y' :: '=' :: 'x' :: '+' :: (natChars b ++
          ';' :: 'x' :: '*' :: 'y' :: [])) := by
    simp [natStr, String.toList]
  have hn : nextToken ("x=" ++ natStr a ++ ";y=x+" ++ natStr b ++ ";x*y").toList =
      .ok (.identifier "x", '=' :: (natChars a ++
        ';' :: 'y' :: '=' :: 'x' :: '+' :: (natChars b ++
          ';' :: 'x' :: '*' :: 'y' :: []))) := by
    rw [hlist]; rfl
  have hlex : Lexes ('=' :: (natChars a ++
      ';' :: 'y' :: '=' :: 'x' :: '+' :: (natChars b ++ ';' :: 'x' :: '*' :: 'y' :: [])))
      [.assign, .number (a : ℚ), .semicolon, .identifier "y", .assign,
        .identifier "x", .plus, .number (b : ℚ), .semicolon,
        .identifier "x", .multiply, .identifier "y"] :=
    .step rfl (.step (nextToken_natChars a _ rfl) (.step rfl (.step rfl (.step rfl
      (.step rfl (.step rfl (.step (nextToken_natChars b _ rfl) (.step rfl
        (.step rfl (.step rfl (.step rfl .nil)))))))))))
  rw [evaluate_sim modelF _ _ _ _ _ hn hlex]
  with_unfolding_all rfl

/-- C1 witness: the general multi-statement theorem instantiated at the
spec's example operands 5 and 2. -/
theorem claim_C1_witness :
    evaluate modelF ("x=" ++ natStr 5 ++ ";y=x+" ++ natStr 2 ++ ";x*y") [] =
      .ok (mulF (.num 5) (addF (.num 5) (.num 2)),
        [("x", F.num 5), ("y", addF (.num 5) (.num 2))]) :=
  claim_C1.1 5 2

/-- C3.  Exponentiation is right-associative: for all rendered operands,
`a^b^c` evaluates as `a^(b^c)`; in particular `2 ^ 3 ^ 2` is `512` (not
`64`). -/
theorem claim_C3 :
    (∀ a b c : ℕ,
      evaluate modelF (natStr a ++ "^" ++ natStr b ++ "^" ++ natStr c) [] =
        .ok (powF (.num a) (powF (.num b) (.num c)), [])) ∧
    evaluate modelF "2 ^ 3 ^ 2" [] = .ok (F.num 512, []) ∧
    powF (.num 2) (powF (.num 3) (.num 2)) = .num 512 := by
  refine ⟨?_, by with_unfolding_all rfl, by with_unfolding_all rfl⟩
  intro a b c
  have hlist : (natStr a ++ "^" ++ natStr b ++ "^" ++ natStr c).toList =
      natChars a ++ '^' :: (natChars b ++ '^' :: natChars c) := by
    simp [natStr, String.toList]
  have hn : nextToken (natStr a ++ "^" ++ natStr b ++ "^" ++ natStr c).toList =
      .ok (.number (a : ℚ), '^' :: (natChars b ++ '^' :: natChars c)) := by
    rw [hlist]; exact nextToken_natChars a _ rfl
  have hlex : Lexes ('^' :: (natChars b ++ '^' :: natChars c))
      [.power, .number (b : ℚ), .power, .number (c : ℚ)] :=
    .step rfl (.step (nextToken_natChars b _ rfl)
      (.step rfl (.step (nextToken_natChars_nil c) .nil)))
  rw [evaluate_sim modelF _ _ _ _ _ hn hlex]
  with_unfolding_all rfl

/-- C3 witness: the general right-associativity statement instantiated at
`2^3^2`. -/
theorem claim_C3_witness :
    evaluate modelF (natStr 2 ++ "^" ++ natStr 3 ++ "^" ++ natStr 2) [] =
      .ok (powF (.num 2) (powF (.num 3) (.num 2)), []) :=
  claim_C3.1 2 3 2

/-- C4.  `* / %` bind tighter than `+ -`, and each level folds left to
right: for all rendered operands `a+b*c` evaluates as `a + (b*c)`,
`(a+b)*c` as `(a+b)*c`, and `a/b/c` as `(a/b)/c`; in particular
`2 + 3 * 4 = 14`, `(2 + 3) * 4 = 20` and `10 / 2 / 5 = 1`. -/
theorem claim_C4 :
    (∀ a b c : ℕ,
      evaluate modelF (natStr a ++ "+" ++ natStr b ++ "*" ++ natStr c) [] =
        .ok (addF (.num a) (mulF (.num b) (.num c)), [])) ∧
    (∀ a b c : ℕ,
      evaluate modelF ("(" ++ natStr a ++ "+" ++ natStr b ++ ")*" ++ natStr c) [] =
        .ok (mulF (addF (.num a) (.num b)) (.num c), [])) ∧
    (∀ a b c : ℕ,
      evaluate modelF (natStr a ++ "/" ++ natStr b ++ "/" ++ natStr c) [] =
        .ok (divF (divF (.num a) (.num b)) (.num c), [])) ∧
    evaluate modelF "2 + 3 * 4" [] = .ok (F.num 14, []) ∧
    evaluate modelF "(2 + 3) * 4" [] = .ok (F.num 20, []) ∧
    evaluate modelF "10 / 2 / 5" [] = .ok (F.num 1, []) := by
  refine ⟨?_, ?_, ?_, by with_unfolding_all rfl, by with_unfolding_all rfl,
    by with_unfolding_all rfl⟩
  · intro a b c
    have hlist : (natStr a ++ "+" ++ natStr b ++ "*" ++ natStr c).toList =
        natChars a ++ '+' :: (natChars b ++ '*' :: natChars c) := by
      simp [natStr, String.toList]
    have hn : nextToken (natStr a ++ "+" ++ natStr b ++ "*" ++ natStr c).toList =
        .ok (.number (a : ℚ), '+' :: (natChars b ++ '*' :: natChars c)) := by
      rw [hlist]; exact nextToken_natChars a _ rfl
    have hlex : Lexes ('+' :: (natChars b ++ '*' :: natChars c))
        [.plus, .number (b : ℚ), .multiply, .number (c : ℚ)] :=
      .step rfl (.step (nextToken_natChars b _ rfl)
        (.step rfl (.step (nextToken_natChars_nil c) .nil)))
    rw [evaluate_sim modelF _ _ _ _ _ hn hlex]
    with_unfolding_all rfl
  · intro a b c
    have hlist : (("(" ++ natStr a ++ "+" ++ natStr b ++ ")*" ++ natStr c)).toList =
        '(' :: (natChars a ++ '+' :: (natChars b ++ ')' :: '*' :: natChars c)) := by
      simp [natStr, String.toList]
    have hn : nextToken ("(" ++ natStr a ++ "+" ++ natStr b ++ ")*" ++ natStr c).toList =
        .ok (.leftParen, natChars a ++ '+' :: (natChars b ++ ')' :: '*' :: natChars c)) := by
      rw [hlist]; rfl
    have hlex : Lexes (natChars a ++ '+' :: (natChars b ++ ')' :: '*' :: natChars c))
        [.number (a : ℚ), .plus, .number (b : ℚ), .rightParen, .multiply,
          .number (c : ℚ)] :=
      .step (nextToken_natChars a _ rfl) (.step rfl (.step (nextToken_natChars b _ rfl)
        (.step rfl (.step rfl (.step (nextToken_natChars_nil c) .nil)))))
    rw [evaluate_sim modelF _ _ _ _ _ hn hlex]
    with_unfolding_all rfl
  · intro a b c
    have hlist : (natStr a ++ "/" ++ natStr b ++ "/" ++ natStr c).toList =
        natChars a ++ '/' :: (natChars b ++ '/' :: natChars c) := by
      simp [natStr, String.toList]
    have hn : nextToken (natStr a ++ "/" ++ natStr b ++ "/" ++ natStr c).toList =
        .ok (.number (a : ℚ), '/' :: (natChars b ++ '/' :: natChars c)) := by
      rw [hlist]; exact nextToken_natChars a _ rfl
    have hlex : Lexes ('/' :: (natChars b ++ '/' :: natChars c))
        [.divide, .number (b : ℚ), .divide, .number (c : ℚ)] :=
      .step rfl (.step (nextToken_natChars b _ rfl)
        (.step rfl (.step (nextToken_natChars_nil c) .nil)))
    rw [evaluate_sim modelF _ _ _ _ _ hn hlex]
    with_unfolding_all rfl

/-- C4 witness: the three general precedence/associativity statements
instantiated at the spec's examples. -/
theorem claim_C4_witness :
    evaluate modelF (natStr 2 ++ "+" ++ natStr 3 ++ "*" ++ natStr 4) [] =
      .ok (addF (.num 2) (mulF (.num 3) (.num 4)), []) ∧
    evaluate modelF ("(" ++ natStr 2 ++ "+" ++ natStr 3 ++ ")*" ++ natStr 4) [] =
      .ok (mulF (addF (.num 2) (.num 3)) (.num 4), []) ∧
    evaluate modelF (natStr 10 ++ "/" ++ natStr 2 ++ "/" ++ natStr 5) [] =
      .ok (divF (divF (.num 10) (.num 2)) (.num 5), []) :=
  ⟨claim_C4.1 2 3 4, claim_C4.2.1 2 3 4, claim_C4.2.2.1 10 2 5⟩

/-- C9.  Unary minus binds tighter than the right recursion of `^`: for all
rendered operands, `-a^b` evaluates as `(-a)^b`; in particular `-2^2` is
`(-2)^2 = 4`, not `-(2^2) = -4`. -/
theorem claim_C9 :
    (∀ a b : ℕ,
      evaluate modelF ("-" ++ natStr a ++ "^" ++ natStr b) [] =
        .ok (powF (negF (.num a)) (.num b), [])) ∧
    evaluate modelF "-2^2" [] = .ok (F.num 4, []) ∧
    powF (negF (.num 2)) (.num 2) = .num 4 ∧
    evaluate modelF "-2^2" [] ≠ .ok (F.num (-4), []) := by
  refine ⟨?_, by with_unfolding_all rfl, by with_unfolding_all rfl, ?_⟩
  · intro a b
    have hlist : ("-" ++ natStr a ++ "^" ++ natStr b).toList =
        '-' :: (natChars a ++ '^' :: natChars b) := by
      simp [natStr, String.toList]
    have hn : nextToken ("-" ++ natStr a ++ "^" ++ natStr b).toList =
        .ok (.minus, natChars a ++ '^' :: natChars b) := by
      rw [hlist]; rfl
    have hlex : Lexes (natChars a ++ '^' :: natChars b)
        [.number (a : ℚ), .power, .number (b : ℚ)] :=
      .step (nextToken_natChars a _ rfl) (.step rfl
        (.step (nextToken_natChars_nil b) .nil))
    rw [evaluate_sim modelF _ _ _ _ _ hn hlex]
    with_unfolding_all rfl
  · intro h
    have h4 : evaluate modelF "-2^2" [] = .ok (F.num 4, []) := by
      with_unfolding_all rfl
    rw [h4] at h
    norm_num at h

/-- C9 witness: the general unary-minus statement instantiated at `-2^2`. -/
theorem claim_C9_witness :
    evaluate modelF ("-" ++ natStr 2 ++ "^" ++ natStr 2) [] =
      .ok (powF (negF (.num 2)) (.num 2), []) :=
  claim_C9.1 2 2

/-- C6.  Division and remainder by zero are not errors: for every rendered
operand `a`, `a / 0` and `a % 0` evaluate to a result (never an error), with
the IEEE-754 values: `a / 0` is `+∞` for `a ≠ 0` and `NaN` for `0 / 0`;
`a % 0` is `NaN`.  Concretely `1 / 0 = +∞`, `0 / 0 = NaN`, `5 % 0 = NaN`. -/
theorem claim_C6 :
    (∀ a : ℕ, evaluate modelF (natStr a ++ " / 0") [] =
      .ok (divF (.num a) (.num 0), [])) ∧
    (∀ a : ℕ, evaluate modelF (natStr a ++ " % 0") [] =
      .ok (modF (.num a) (.num 0), [])) ∧
    (∀ a : ℕ, a ≠ 0 → divF (.num a) (.num 0) = .inf) ∧
    divF (.num 0) (.num 0) = .nan ∧
    (∀ a : ℕ, modF (.num a) (.num 0) = .nan) ∧
    evaluate modelF "1 / 0" [] = .ok (.inf, []) ∧
    evaluate modelF "0 / 0" [] = .ok (.nan, []) ∧
    evaluate modelF "5 % 0" [] = .ok (.nan, []) := by
  refine ⟨?_, ?_, ?_, by with_unfolding_all rfl, ?_, by with_unfolding_all rfl,
    by with_unfolding_all rfl, by with_unfolding_all rfl⟩
  · intro a
    have hlist : (natStr a ++ " / 0").toList =
        natChars a ++ (' ' :: '/' :: ' ' :: '0' :: []) := by
      simp [natStr, String.toList]
    rw [evaluate]
    simp only [hlist]
    rw [nextToken_natChars a _ (by decide)]
    with_unfolding_all rfl
  · intro a
    have hlist : (natStr a ++ " % 0").toList =
        natChars a ++ (' ' :: '%' :: ' ' :: '0' :: []) := by
      simp [natStr, String.toList]
    rw [evaluate]
    simp only [hlist]
    rw [nextToken_natChars a _ (by decide)]
    with_unfolding_all rfl
  · intro a ha
    have h0 : ((a : ℚ)) ≠ 0 := by exact_mod_cast ha
    have hpos : (0 : ℚ) < (a : ℚ) := by exact_mod_cast Nat.pos_of_ne_zero ha
    simp [divF, h0, hpos]
  · intro a
    simp [modF]

/-- C6 witness: the general division- and remainder-by-zero statements
instantiated at `1 / 0` and `5 % 0`. -/
theorem claim_C6_witness :
    evaluate modelF (natStr 1 ++ " / 0") [] = .ok (divF (.num 1) (.num 0), []) ∧
    divF (.num 1) (.num 0) = .inf ∧
    modF (.num 5) (.num 0) = .nan :=
  ⟨claim_C6.1 1, claim_C6.2.2.1 1 one_ne_zero, claim_C6.2.2.2.2.1 5⟩

/-- C5.  Resolving an identifier that is absent from the symbol table fails
with `UndefinedVariableError` naming that identifier and never yields a
value (in particular never a default of zero): whenever `factor` sees an
identifier token whose name is unbound (and the lexer can deliver the
following token), it returns exactly `undefinedVariable name`; concretely
`evaluate("z + 1", {})` fails with `UndefinedVariableError("z")`. -/
theorem claim_C5 :
    (∀ (α : Type) (M : FloatOps α) (fuel : ℕ) (st : PState α) (name : String)
       (t : Token) (r : List Char),
       st.current = .identifier name →
       lookupVar name st.vars = none →
       nextToken st.rest = .ok (t, r) →
       run M (fuel + 1) .factor st = .error (.undefinedVariable name)) ∧
    evaluate modelF "z + 1" [] = .error (.undefinedVariable "z") := by
  refine ⟨?_, by with_unfolding_all rfl⟩
  intro α M fuel st name t r hcur hlook hnext
  obtain ⟨c, l, vars⟩ := st
  dsimp only at hcur hlook hnext
  subst hcur
  simp only [run]
  rw [show eat (.identifier "") ⟨.identifier name, l, vars⟩ = .ok ⟨t, r, vars⟩ from by
    simp [eat, kindIndex, hnext]]
  simp only [bind, Except.bind, hlook]

/-- C5 witness: the general statement instantiated at an unbound `z` with an
empty symbol table. -/
theorem claim_C5_witness :
    run modelF 1 .factor ⟨.identifier "z", [], []⟩ =
      .error (.undefinedVariable "z") :=
  claim_C5.1 F modelF 0 ⟨.identifier "z", [], []⟩ "z" .eof [] rfl rfl rfl

/-- C10.  A digit under the cursor always lexes to a `Number` token (never a
`LexError`): the lexer takes the maximal run of digits and decimal points
and parses it, and a run that is not a valid `f64` literal parses to `0`;
concretely `evaluate("1.2.3")` succeeds and returns `0`. -/
theorem claim_C10 :
    (∀ (c : Char) (l : List Char), c.isDigit = true →
      nextToken (c :: l) =
        .ok (.number (parseNumber ((c :: l).takeWhile isNumChar)),
          (c :: l).dropWhile isNumChar)) ∧
    (∀ s : List Char, numValid s = false → parseNumber s = 0) ∧
    numValid "1.2.3".toList = false ∧
    evaluate modelF "1.2.3" [] = .ok (F.num 0, []) := by
  refine ⟨?_, ?_, by decide, by with_unfolding_all rfl⟩
  · intro c l h
    exact nextToken_digit h l
  · intro s hs
    simp [parseNumber, hs]

/-- C10 witness: the lexer statement instantiated on the malformed literal
`1.2.3`, and the fallback value statement on its character list. -/
theorem claim_C10_witness :
    nextToken ('1' :: '.' :: '2' :: '.' :: '3' :: []) =
      .ok (.number (parseNumber (('1' :: '.' :: '2' :: '.' :: '3' :: []).takeWhile isNumChar)),
        ('1' :: '.' :: '2' :: '.' :: '3' :: []).dropWhile isNumChar) ∧
    parseNumber ('1' :: '.' :: '2' :: '.' :: '3' :: []) = 0 :=
  ⟨claim_C10.1 '1' ('.' :: '2' :: '.' :: '3' :: []) rfl,
   claim_C10.2.1 _ (by decide)⟩

/-- C2.  Commit-on-success-only: whenever one evaluation call fails (with
any error), the session's stored snapshot after
`CalculatorCLI::evaluate_expression` is exactly the snapshot before the
call and no result value is produced — even when assignments earlier in the
failing input had already executed, as in `"x = 5; z"`. -/
theorem claim_C2 :
    (∀ (α : Type) (M : FloatOps α) (cliVars : VarMap α) (input : String)
       (e : EvalError),
       evaluate M input cliVars = .error e →
       evaluateExpression M ⟨cliVars⟩ input =
         (.error "Invalid expression", ⟨cliVars⟩)) ∧
    evaluate modelF "x = 5; z" [] = .error (.undefinedVariable "z") ∧
    evaluateExpression modelF ⟨[]⟩ "x = 5; z" =
      (.error "Invalid expression", ⟨[]⟩) := by
  refine ⟨?_, by with_unfolding_all rfl, by with_unfolding_all rfl⟩
  intro α M cliVars input e h
  simp [evaluateExpression, h]

/-- C2 witness: the general rollback statement instantiated at the failing
input `"x = 5; z"` (whose first assignment executes before the failure). -/
theorem claim_C2_witness :
    evaluateExpression modelF ⟨[]⟩ "x = 5; z" =
      (.error "Invalid expression", ⟨[]⟩) :=
  claim_C2.1 F modelF [] "x = 5; z" (.undefinedVariable "z") claim_C2.2.1

/-- C7.  Function-call structure: a `Function` token must be followed by
`'('`; for `pi`/`e` no inner expression is parsed and the constant is
returned, for every other builtin exactly one inner expression is parsed and
the dispatched function is applied to it; then `')'` is consumed (so a
constant with an argument, a missing `'('`, or a second argument all fail).
Numerically, `sin(pi()/2)` is within `1e-9` of `1` and `sqrt(2 ^ 4)` is
exactly `4`. -/
theorem claim_C7 :
    (∀ (α : Type) (M : FloatOps α) (vars : VarMap α),
      evaluate M "pi()" vars = .ok (M.piV, vars)) ∧
    (∀ (α : Type) (M : FloatOps α) (vars : VarMap α),
      evaluate M "e()" vars = .ok (M.eV, vars)) ∧
    (∀ name, name ∈ ["sin", "cos", "tan", "asin", "acos", "atan", "sqrt",
        "abs", "floor", "ceil", "round"] →
      ∀ (α : Type) (M : FloatOps α) (vars : VarMap α),
        evaluate M (name ++ "(5)") vars =
          Except.bind (callFunction M name (M.ofLit 5)) (fun v => .ok (v, vars))) ∧
    (∀ (α : Type) (M : FloatOps α) (vars : VarMap α),
      evaluate M "pi(1)" vars = .error (.parseError .rightParen (.number 1))) ∧
    (∀ (α : Type) (M : FloatOps α) (vars : VarMap α),
      evaluate M "sin 5" vars = .error (.parseError .leftParen (.number 5))) ∧
    (∀ (α : Type) (M : FloatOps α) (vars : VarMap α),
      evaluate M "sin(1,2)" vars = .error (.parseError .rightParen .comma)) ∧
    (∃ v : ℝ, evaluate modelR "sin(pi()/2)" [] = .ok (v, []) ∧
      |v - 1| ≤ 1/1000000000) ∧
    evaluate modelR "sqrt(2 ^ 4)" [] = .ok ((4:ℝ), []) ∧
    evaluate modelF "sqrt(2 ^ 4)" [] = .ok (F.num 4, []) := by
  refine ⟨fun α M vars => by with_unfolding_all rfl,
    fun α M vars => by with_unfolding_all rfl, ?_,
    fun α M vars => by with_unfolding_all rfl,
    fun α M vars => by with_unfolding_all rfl,
    fun α M vars => by with_unfolding_all rfl, ?_, ?_,
    by with_unfolding_all rfl⟩
  · intro name hname α M vars
    simp only [List.mem_cons, List.not_mem_nil, or_false] at hname
    rcases hname with rfl | rfl | rfl | rfl | rfl | rfl | rfl | rfl | rfl | rfl | rfl <;>
      with_unfolding_all rfl
  · refine ⟨Real.sin ((fpi:ℝ) / ((2:ℚ):ℝ)), by with_unfolding_all rfl, ?_⟩
    have h2 : ((2:ℚ):ℝ) = 2 := by norm_num
    rw [h2]
    have hfl : (3.141592 : ℝ) ≤ (fpi:ℝ) := by
      rw [show (3.141592 : ℝ) = ((3.141592 : ℚ) : ℝ) by norm_num]
      exact Rat.cast_le.mpr (by norm_num [fpi])
    have hfu : (fpi:ℝ) ≤ 3.141593 := by
      rw [show (3.141593 : ℝ) = ((3.141593 : ℚ) : ℝ) by norm_num]
      exact Rat.cast_le.mpr (by norm_num [fpi])
    have hpl := Real.pi_gt_d6
    have hpu := Real.pi_lt_d6
    have hsin : Real.sin ((fpi:ℝ)/2) = Real.cos (Real.pi/2 - (fpi:ℝ)/2) :=
      (Real.cos_pi_div_two_sub _).symm
    set d := Real.pi/2 - (fpi:ℝ)/2 with hd
    have hdb : |d| ≤ 0.0000006 := by
      rw [abs_le]; constructor <;> (rw [hd]; nlinarith)
    have hc1 : Real.cos d ≤ 1 := Real.cos_le_one d
    have hc2 : 1 - d^2/2 ≤ Real.cos d := Real.one_sub_sq_div_two_le_cos
    have hdsq : d^2 ≤ (0.0000006:ℝ)^2 := by
      rw [← sq_abs]
      exact pow_le_pow_left₀ (abs_nonneg d) hdb 2
    rw [hsin, abs_le]
    constructor <;> nlinarith
  · have hval : evaluate modelR "sqrt(2 ^ 4)" [] =
        .ok (Real.sqrt (((2:ℚ):ℝ) ^ ((4:ℚ):ℝ)), []) := by with_unfolding_all rfl
    have h4 : Real.sqrt (((2:ℚ):ℝ) ^ ((4:ℚ):ℝ)) = 4 := by
      have h2 : ((2:ℚ):ℝ) = 2 := by norm_num
      have h4n : ((4:ℚ):ℝ) = ((4:ℕ):ℝ) := by norm_num
      rw [h2, h4n, Real.rpow_natCast]
      rw [show ((2:ℝ) ^ (4:ℕ)) = 4 ^ 2 by norm_num]
      exact Real.sqrt_sq (by norm_num)
    rw [hval, h4]

/-- C7 witness: the one-argument dispatch statement instantiated at `sin`. -/
theorem claim_C7_witness :
    evaluate modelF ("sin" ++ "(5)") [] =
      Except.bind (callFunction modelF "sin" (modelF.ofLit 5))
        (fun v => .ok (v, [])) :=
  claim_C7.2.2.1 "sin" (by simp) F modelF []

/-- C8 counterexample: the claim says the recognized builtin vocabulary has
exactly 12 names, but the lexer's match recognizes these 13 pairwise
distinct names (sin, cos, tan, asin, acos, atan, sqrt, abs, floor, ceil,
round, pi, e). -/
theorem claim_C8_counterexample :
    builtinNames.length = 13 ∧ builtinNames.Nodup ∧
    builtinNames.all isBuiltinName = true := by decide

/-- C8 (amended).  The set of names the lexer recognizes as `Function`
tokens is fixed and closed and contains exactly 13 names; every other
identifier is emitted as an `Identifier` token: an alphabetic or underscore
character under the cursor lexes the maximal identifier run and emits a
`Function` token exactly when the run is one of the 13 builtin names, an
`Identifier` token otherwise. -/
theorem claim_C8 :
    (∀ s : String, isBuiltinName s = true ↔ s ∈ builtinNames) ∧
    builtinNames.length = 13 ∧ builtinNames.Nodup ∧
    (∀ (c : Char) (l : List Char),
      (c.isAlpha || c = '_') = true → c.isDigit = false →
      nextToken (c :: l) =
        (if isBuiltinName (String.mk ((c :: l).takeWhile isIdentChar)) then
          .ok (.function (String.mk ((c :: l).takeWhile isIdentChar)),
            (c :: l).dropWhile isIdentChar)
         else
          .ok (.identifier (String.mk ((c :: l).takeWhile isIdentChar)),
            (c :: l).dropWhile isIdentChar))) := by
  refine ⟨?_, by decide, by decide, ?_⟩
  · intro s
    simp only [isBuiltinName, builtinNames, Bool.or_eq_true, decide_eq_true_eq,
      List.mem_cons, List.not_mem_nil, or_false]
    tauto
  · intro c l h hd
    have ne : ∀ x : Char, x.isAlpha = false → ¬ x = '_' → ¬ c = x := by
      rintro x hx hu rfl
      rcases Bool.or_eq_true_iff.mp h with h1 | h1
      · rw [h1] at hx; cases hx
      · exact hu (by simpa using h1)
    have aux : nextTokenAux (c :: l) =
        (if isBuiltinName (String.mk ((c :: l).takeWhile isIdentChar)) then
          (.ok (.function (String.mk ((c :: l).takeWhile isIdentChar)),
            (c :: l).dropWhile isIdentChar) : Except EvalError (Token × List Char))
         else
          .ok (.identifier (String.mk ((c :: l).takeWhile isIdentChar)),
            (c :: l).dropWhile isIdentChar)) := by
      simp [nextTokenAux, readIdent, hd, h,
        ne '+' (by decide) (by decide), ne '-' (by decide) (by decide),
        ne '*' (by decide) (by decide), ne '/' (by decide) (by decide),
        ne '^' (by decide) (by decide), ne '%' (by decide) (by decide),
        ne '(' (by decide) (by decide), ne ')' (by decide) (by decide),
        ne '=' (by decide) (by decide), ne ';' (by decide) (by decide),
        ne ',' (by decide) (by decide)]
    rw [nextToken]
    rw [if_neg (by
      simp [ne ' ' (by decide) (by decide), ne '\t' (by decide) (by decide),
        ne '\n' (by decide) (by decide)])]
    exact aux

/-- C8 witness: the characterization applied at a builtin name and at a
non-builtin identifier. -/
theorem claim_C8_witness :
    isBuiltinName "pi" = true ∧
    nextToken ('s' :: 'i' :: 'n' :: []) = .ok (.function "sin", []) ∧
    nextToken ('f' :: 'o' :: 'o' :: []) = .ok (.identifier "foo", []) :=
  ⟨(claim_C8.1 "pi").mpr (by decide),
   (claim_C8.2.2.2 's' ('i' :: 'n' :: []) (by decide) (by decide)).trans
     (by with_unfolding_all rfl),
   (claim_C8.2.2.2 'f' ('o' :: 'o' :: []) (by decide) (by decide)).trans
     (by with_unfolding_all rfl)⟩

end Calc
